import Mathlib

/-!
Verification of the learning-snake repository: a shallow embedding of the
snake game engine (src/snake/game.py) and the tabular proximity-based
reinforcement learner (src/gamer/trained.py), with theorems settling the
specification claims about them.

Modelling conventions:
* Python ints are `ℤ` (scores, which are non-negative counters, are `ℕ`);
  the agent's discount factor `gamma`, a Python float, is modelled as `ℚ`
  (every claim-relevant computation involves only exactly representable
  values).
* Python's `raise` is modelled with `Except String`.
* Randomness is modelled nondeterministically by explicit parameters: the
  random free-cell placement takes an index `choice` selecting among the
  free cells (the set of possible outcomes of the Python function — both
  its bounded random-retry path and its exhaustive-enumeration fallback —
  is exactly the set of in-bounds cells outside the taboo list); the
  agent's random tie-break (`r.choice`) is modelled by returning the whole
  candidate list from which the choice is made.
* Python dicts are association lists, looked up by value equality.
-/

/-- A bidimensional integer position, from `Position` in src/snake/game.py.
x increases left to right, y increases bottom to top. Equality is by
coordinate pair, as in `Position.__eq__`. -/
structure Position where
  x : ℤ
  y : ℤ
deriving DecidableEq, Repr

namespace Position

/-- Indicate the left direction (`Position.LEFT`). -/
def LEFT : ℕ := 0

/-- Indicate the upward direction (`Position.UP`). -/
def UP : ℕ := 1

/-- Indicate the right direction (`Position.RIGHT`). -/
def RIGHT : ℕ := 2

/-- Indicate the downward direction (`Position.DOWN`). -/
def DOWN : ℕ := 3

/-- Modelled from the spec: `Position.DIRECTIONS` is referenced throughout
src/gamer/trained.py but is not defined in the provided src/snake/game.py;
the spec's Direction data model is "enum of 4 values {LEFT, UP, RIGHT,
DOWN}" and the agent always ranges over "the four directions". -/
def DIRECTIONS : List ℕ := [LEFT, UP, RIGHT, DOWN]

/-- `Position.move`: the position reached from `p` by moving in direction
`dir`; an error if `dir` is not one of the four valid directions. -/
def move (p : Position) (dir : ℕ) : Except String Position :=
  if dir ∉ [LEFT, UP, RIGHT, DOWN] then
    Except.error "not a valid move"
  else
    let dx : ℤ := if dir = RIGHT then 1 else if dir = LEFT then -1 else 0
    let dy : ℤ := if dir = UP then 1 else if dir = DOWN then -1 else 0
    Except.ok ⟨p.x + dx, p.y + dy⟩

/-- `Position.is_out_of_bounds`: the bounds are `(left, top, right, bottom)`,
borders are valid positions. -/
def is_out_of_bounds (p : Position) (bounds : ℤ × ℤ × ℤ × ℤ) : Bool :=
  let (left, top, right, bottom) := bounds
  p.x < left || p.x > right || p.y < bottom || p.y > top

/-- The in-bounds positions not in `taboo`, enumerated as in the fallback
loop of `Position.random_position` (x from left to right outer, y from
bottom to top inner). -/
def free_positions (bounds : ℤ × ℤ × ℤ × ℤ) (taboo : List Position) :
    List Position :=
  let (left, top, right, bottom) := bounds
  ((List.range (right + 1 - left).toNat).flatMap (fun (i : ℕ) =>
    (List.range (top + 1 - bottom).toNat).map (fun (j : ℕ) =>
      (⟨left + i, bottom + j⟩ : Position)))).filter
    (fun p => ¬ p ∈ taboo)

/-- `Position.random_position`: a position within bounds and not in taboo,
or an error when no free position is left. The random draw is modelled by
the index `choice`: both the Python random-retry path and its enumeration
fallback can return exactly the in-bounds positions outside `taboo`. -/
def random_position (bounds : ℤ × ℤ × ℤ × ℤ) (taboo : List Position)
    (choice : ℕ) : Except String Position :=
  let ps := free_positions bounds taboo
  if h : ps.length = 0 then
    Except.error "No free positions left"
  else
    Except.ok (ps.get ⟨choice % ps.length, Nat.mod_lt _ (Nat.pos_of_ne_zero h)⟩)

end Position

/-- `SnakeStatus`: the status snapshot of the snake game (bounds, snake
positions from tail to head, apple position, score, alive flag, won flag). -/
structure SnakeStatus where
  bounds : ℤ × ℤ × ℤ × ℤ
  snake : List Position
  apple : Position
  score : ℕ
  alive : Bool
  won : Bool
deriving DecidableEq, Repr

/-- The mutable state of class `Snake` in src/snake/game.py: width, height,
bounds `(0, height-1, width-1, 0)`, snake body (tail to head), apple,
score, alive flag, win flag. -/
structure Snake where
  width : ℕ
  height : ℕ
  bounds : ℤ × ℤ × ℤ × ℤ
  snake : List Position
  apple : Position
  score : ℕ
  alive : Bool
  win : Bool
deriving DecidableEq, Repr

namespace Snake

/-- `Snake.get_snake_head_position`: the snake's head is the last body
element (`self.snake[-1]`; the Python indexing is defined only for a
non-empty body, so a default is supplied for the empty case). -/
def get_snake_head_position (g : Snake) : Position :=
  g.snake.getLastD ⟨0, 0⟩

/-- `Snake.is_game_over`: true iff the snake is not alive or has won. -/
def is_game_over (g : Snake) : Bool :=
  !g.alive || g.win

/-- `Snake.play`: play a single move. Errors if the game is over or the
direction is invalid; a losing move only clears the alive flag; otherwise
the head advances, and either the apple is eaten (score up, possibly
winning, otherwise apple respawns on a free cell chosen by `choice`) or
the tail is popped. -/
def play (g : Snake) (dir : ℕ) (choice : ℕ) : Except String Snake :=
  if g.is_game_over then
    Except.error "Cannot move since the game is over"
  else
    match g.get_snake_head_position.move dir with
    | Except.error e => Except.error e
    | Except.ok next_pos =>
      let out_of_bounds := next_pos.is_out_of_bounds g.bounds
      let self_bite := g.snake.contains next_pos
      let apple_eaten := next_pos = g.apple
      if out_of_bounds || self_bite then
        Except.ok { g with alive := false }
      else
        let grown := g.snake ++ [next_pos]
        if apple_eaten then
          if grown.length = g.width * g.height then
            Except.ok { g with snake := grown, score := g.score + 1, win := true }
          else
            match Position.random_position g.bounds grown choice with
            | Except.error e => Except.error e
            | Except.ok new_apple =>
              Except.ok { g with snake := grown, score := g.score + 1,
                                 apple := new_apple }
        else
          Except.ok { g with snake := grown.tail }

/-- `Snake.get_status`: the current status of the game as a snapshot. -/
def get_status (g : Snake) : SnakeStatus :=
  ⟨g.bounds, g.snake, g.apple, g.score, g.alive, g.win⟩

end Snake

/-- Python's `max` over a list, defined for non-empty lists (a default of 0
is supplied for the empty case, which never arises at the call sites). -/
def list_max (l : List ℤ) : ℤ :=
  l.foldl max (l.headD 0)

/-- Python's `int(...)` applied to a rational: truncation toward zero. -/
def py_int (q : ℚ) : ℤ :=
  q.num.tdiv q.den

/-- The observation key ("proximity map"): a fixed-length tuple of
integers, modelled as a list. -/
abbrev ProximityMap := List ℤ

/-- The reward table `exp_reward : dict[tuple[int], dict[int, int]]` of
`ProximityPlayer`, as an association list from observation key to an
association list from direction to expected reward. -/
abbrev ExpReward := List (ProximityMap × List (ℕ × ℤ))

/-- The state of a `ProximityPlayer` (src/gamer/trained.py): vision
radius, discount factor gamma, and the expected-reward table. -/
structure ProximityPlayer where
  radius : ℕ
  gamma : ℚ
  exp_reward : ExpReward
deriving DecidableEq, Repr

namespace ProximityPlayer

/-- `ProximityPlayer.MAP_DEATH`: a position that causes death. -/
def MAP_DEATH : ℤ := 1

/-- `ProximityPlayer.MAP_NONE`: a non-dangerous position. -/
def MAP_NONE : ℤ := 0

/-- `ProximityPlayer.REWARD_DEATH`: the reward associated to death. -/
def REWARD_DEATH : ℤ := -1

/-- `ProximityPlayer.REWARD_NONE`: the reward for not-death, not-eating. -/
def REWARD_NONE : ℤ := 0

/-- `ProximityPlayer.REWARD_APPLE`: the reward associated to eating. -/
def REWARD_APPLE : ℤ := 100

/-- Membership test `map in self.exp_reward`. -/
def has_map (t : ExpReward) (map : ProximityMap) : Bool :=
  (t.lookup map).isSome

/-- The stored reward `self.exp_reward[map][dir]` (defaults, which never
arise at keys/directions the code consults, are 0). -/
def reward_of (t : ExpReward) (map : ProximityMap) (dir : ℕ) : ℤ :=
  (((t.lookup map).getD []).lookup dir).getD 0

/-- Python dict assignment on the inner direction dict: update the entry
in place when present, insert it otherwise. -/
def set_dir (inner : List (ℕ × ℤ)) (dir : ℕ) (v : ℤ) : List (ℕ × ℤ) :=
  if (inner.lookup dir).isSome then
    inner.map (fun d => if d.1 = dir then (d.1, v) else d)
  else
    inner ++ [(dir, v)]

/-- Setting `self.exp_reward[map][dir] = v`: the inner dict entry is
updated in place, or inserted when absent (Python dict assignment); the
outer key is assumed present, as it is at every call site. -/
def set_reward (t : ExpReward) (map : ProximityMap) (dir : ℕ) (v : ℤ) :
    ExpReward :=
  t.map (fun e => if e.1 = map then (e.1, set_dir e.2 dir v) else e)

/-- `ProximityPlayer._add_map`: add a key to the expected-reward table,
assigning the default value `REWARD_NONE` to all four directions. -/
def add_map (t : ExpReward) (map : ProximityMap) : ExpReward :=
  t ++ [(map, Position.DIRECTIONS.map (fun dir => (dir, REWARD_NONE)))]

/-- `ProximityPlayer._retrieve_proximity_map`: the encoding of the dangers
nearby (a `(2·radius+1)²` window centered on the head, scanned with dy
outer from −radius to radius and dx inner) followed by the apple offset
from the head, each component clamped to `[−radius−1, radius+1]`. -/
def retrieve_proximity_map (radius : ℕ) (status : SnakeStatus) :
    ProximityMap :=
  let head := status.snake.getLastD ⟨0, 0⟩
  let n := 2 * radius + 1
  let danger := (List.range n).flatMap (fun (i : ℕ) =>
    (List.range n).map (fun (j : ℕ) =>
      let dy : ℤ := (i : ℤ) - radius
      let dx : ℤ := (j : ℤ) - radius
      let pos : Position := ⟨head.x + dx, head.y + dy⟩
      if pos.is_out_of_bounds status.bounds || status.snake.contains pos then
        MAP_DEATH
      else
        MAP_NONE))
  let a_dx0 := status.apple.x - head.x
  let a_dx : ℤ :=
    if a_dx0 > radius then radius + 1
    else if a_dx0 < -(radius : ℤ) then -(radius : ℤ) - 1
    else a_dx0
  let a_dy0 := status.apple.y - head.y
  let a_dy : ℤ :=
    if a_dy0 > radius then radius + 1
    else if a_dy0 < -(radius : ℤ) then -(radius : ℤ) - 1
    else a_dy0
  danger ++ [a_dx, a_dy]

/-- `ProximityPlayer._retrieve_movement`: the move that brought the
current status to the next one, discovered by comparing head coordinates;
an error when no branch applies. -/
def retrieve_movement (curr_status next_status : SnakeStatus) :
    Except String ℕ :=
  let curr_head := curr_status.snake.getLastD ⟨0, 0⟩
  let next_head := next_status.snake.getLastD ⟨0, 0⟩
  if curr_head.x > next_head.x then Except.ok Position.LEFT
  else if curr_head.y < next_head.y then Except.ok Position.UP
  else if curr_head.x < next_head.x then Except.ok Position.RIGHT
  else if curr_head.y > next_head.y then Except.ok Position.DOWN
  else Except.error "Non-consecutive statuses"

/-- `ProximityPlayer._retrieve_reward`: the reward gained by moving from
the current status to the next one. -/
def retrieve_reward (curr_status next_status : SnakeStatus) : ℤ :=
  if !next_status.alive then REWARD_DEATH
  else if curr_status.score < next_status.score then REWARD_APPLE
  else REWARD_NONE

/-- A training sample: current key, next key, move, reward. -/
abbrev Sample := ProximityMap × ProximityMap × ℕ × ℤ

/-- `ProximityPlayer._history_to_samples`: one sample per adjacent pair of
the history, in chronological order; propagates the movement-retrieval
error. -/
def history_to_samples (radius : ℕ) :
    List SnakeStatus → Except String (List Sample)
  | [] => Except.ok []
  | [_] => Except.ok []
  | curr_status :: next_status :: rest =>
    match retrieve_movement curr_status next_status with
    | Except.error e => Except.error e
    | Except.ok move =>
      match history_to_samples radius (next_status :: rest) with
      | Except.error e => Except.error e
      | Except.ok tail =>
        Except.ok ((retrieve_proximity_map radius curr_status,
                    retrieve_proximity_map radius next_status,
                    move,
                    retrieve_reward curr_status next_status) :: tail)

/-- The lazy-initialization step `if map not in self.exp_reward:
self._add_map(map)` of compute_move and train. -/
def ensure_map (t : ExpReward) (map : ProximityMap) : ExpReward :=
  if has_map t map then t else add_map t map

/-- One iteration of the training loop of `ProximityPlayer.train`: ensure
both keys are present (current first), compute the max stored reward of
the next key over the four directions, and overwrite the current entry
with `int(reward + gamma * next_max_reward)`. -/
def train_step (gamma : ℚ) (t : ExpReward) (s : Sample) : ExpReward :=
  let (curr_map, next_map, move, reward) := s
  let t2 := ensure_map (ensure_map t curr_map) next_map
  let next_max_reward :=
    list_max (Position.DIRECTIONS.map (fun dir => reward_of t2 next_map dir))
  set_reward t2 curr_map move
    (py_int ((reward : ℚ) + gamma * (next_max_reward : ℚ)))

/-- The loop `for i in range(len(samples) - 1, -1, -1)` of
`ProximityPlayer.train`: process the sample at index `i-1`, then continue
downward. -/
def train_loop (gamma : ℚ) (samples : List Sample) (t : ExpReward) :
    ℕ → ExpReward
  | 0 => t
  | i + 1 =>
    train_loop gamma samples (train_step gamma t (samples.getD i default)) i

/-- `ProximityPlayer.train`: convert the history to samples and process
them by descending index, updating the reward table. -/
def train (p : ProximityPlayer) (history : List SnakeStatus) :
    Except String ProximityPlayer :=
  match history_to_samples p.radius history with
  | Except.error e => Except.error e
  | Except.ok samples =>
    Except.ok { p with
      exp_reward := train_loop p.gamma samples p.exp_reward samples.length }

/-- `ProximityPlayer.compute_move`: encode the status, lazily add the key
when unseen, and pick among the directions of maximum stored reward. The
final `r.choice(dirs)` is modelled by returning the whole candidate list
`dirs` alongside the updated player. -/
def compute_move (p : ProximityPlayer) (status : SnakeStatus) :
    ProximityPlayer × List ℕ :=
  let map := retrieve_proximity_map p.radius status
  let t := ensure_map p.exp_reward map
  let max_reward :=
    list_max (Position.DIRECTIONS.map (fun dir => reward_of t map dir))
  let dirs := Position.DIRECTIONS.filter
    (fun dir => decide (reward_of t map dir = max_reward))
  ({ p with exp_reward := t }, dirs)

end ProximityPlayer

/-! ### Helper lemmas -/

/-- Python's `max` of a non-empty list is an element of the list. -/
theorem list_max_mem : ∀ (l : List ℤ), l ≠ [] → list_max l ∈ l := by
  have key : ∀ (t : List ℤ) (a : ℤ), t.foldl max a ∈ a :: t := by
    intro t
    induction t with
    | nil => intro a; simp
    | cons b t ih =>
      intro a
      have h := ih (max a b)
      simp only [List.foldl_cons]
      rcases List.mem_cons.mp h with h1 | h1
      · rcases max_choice a b with h2 | h2
        · exact List.mem_cons.mpr (Or.inl (h1.trans h2))
        · exact List.mem_cons.mpr (Or.inr (List.mem_cons.mpr (Or.inl (h1.trans h2))))
      · exact List.mem_cons.mpr (Or.inr (List.mem_cons.mpr (Or.inr h1)))
  intro l hl
  match l with
  | a :: t => simpa [list_max] using key t a

/-- Every element of a list is at most Python's `max` of the list. -/
theorem le_list_max : ∀ (l : List ℤ), ∀ x ∈ l, x ≤ list_max l := by
  have key : ∀ (t : List ℤ) (a : ℤ), a ≤ t.foldl max a ∧
      ∀ x ∈ t, x ≤ t.foldl max a := by
    intro t
    induction t with
    | nil => intro a; simp
    | cons b t ih =>
      intro a
      have h := ih (max a b)
      constructor
      · exact le_trans (le_max_left a b) h.1
      · intro x hx
        rcases List.mem_cons.mp hx with rfl | hx
        · exact le_trans (le_max_right a x) h.1
        · exact h.2 x hx
  intro l x hx
  match l with
  | a :: t =>
    rcases List.mem_cons.mp hx with rfl | hx
    · simpa [list_max] using (key t x).1
    · simpa [list_max] using (key t a).2 x hx

/-- Python's `int()` on an integer-valued rational is that integer. -/
theorem py_int_intCast (n : ℤ) : py_int (n : ℚ) = n := by
  simp [py_int, Rat.num_intCast, Rat.den_intCast]

/-- Looking up past a prefix where the key is absent. -/
theorem lookup_append_of_eq_none {α β : Type} [BEq α] (l l' : List (α × β))
    (k : α) (h : l.lookup k = none) :
    (l ++ l').lookup k = l'.lookup k := by
  induction l with
  | nil => simp
  | cons e l ih =>
    match e with
    | (k', b) =>
      cases hk : (k == k') with
      | true => simp [List.lookup_cons, hk] at h
      | false =>
        simp only [List.lookup_cons, hk] at h
        simp only [List.cons_append, List.lookup_cons, hk]
        exact ih h

/-- Looking up in an extended table preserves present entries. -/
theorem lookup_append_of_isSome {α β : Type} [BEq α] (l l' : List (α × β))
    (k : α) (h : (l.lookup k).isSome = true) :
    (l ++ l').lookup k = l.lookup k := by
  induction l with
  | nil => simp at h
  | cons e l ih =>
    match e with
    | (k', b) =>
      cases hk : (k == k') with
      | true => simp [List.lookup_cons, hk]
      | false =>
        simp only [List.lookup_cons, hk] at h ⊢
        simp only [List.cons_append, List.lookup_cons, hk]
        exact ih h

/-- In-place update of an association-list entry, read back at its key. -/
theorem lookup_map_update (inner : List (ℕ × ℤ)) (dir : ℕ) (v : ℤ)
    (h : (inner.lookup dir).isSome = true) :
    (inner.map (fun d => if d.1 = dir then (d.1, v) else d)).lookup dir =
      some v := by
  induction inner with
  | nil => simp at h
  | cons e inner ih =>
    match e with
    | (d', w) =>
      by_cases hd : d' = dir
      · subst hd
        simp [List.lookup_cons]
      · have hbeq : (dir == d') = false := by
          simp [Ne.symm hd]
        simp only [List.lookup_cons, hbeq] at h
        simp only [List.map_cons, if_neg hd]
        simp only [List.lookup_cons, hbeq]
        exact ih h

namespace ProximityPlayer

/-- Setting a direction's reward and reading it back yields the value. -/
theorem lookup_set_dir_self (inner : List (ℕ × ℤ)) (dir : ℕ) (v : ℤ) :
    (set_dir inner dir v).lookup dir = some v := by
  unfold set_dir
  cases hlk : List.lookup dir inner with
  | some w =>
    have hs : (List.lookup dir inner).isSome = true := by rw [hlk]; rfl
    simp only [Option.isSome_some, if_true]
    exact lookup_map_update inner dir v hs
  | none =>
    simp only [Option.isSome_none, Bool.false_eq_true, if_false]
    rw [lookup_append_of_eq_none _ _ _ hlk]
    simp [List.lookup_cons]

/-- Reading any key of `set_reward t map dir v`: the inner dict of `map`
is updated, every other entry is unchanged. -/
theorem lookup_set_reward (t : ExpReward) (map : ProximityMap) (dir : ℕ)
    (v : ℤ) (k : ProximityMap) :
    (set_reward t map dir v).lookup k =
      if k = map then
        Option.map (fun inner => set_dir inner dir v) (t.lookup k)
      else t.lookup k := by
  induction t with
  | nil => simp [set_reward]
  | cons e t ih =>
    match e with
    | (k', inner) =>
      simp only [set_reward, List.map_cons] at ih ⊢
      by_cases h1 : k' = map
      · subst h1
        simp only [if_pos rfl]
        by_cases h2 : k = k'
        · subst h2
          simp [List.lookup_cons]
        · have hbeq : (k == k') = false := by simp [h2]
          simp only [List.lookup_cons, hbeq, if_pos, if_neg h2]
          simpa [h2] using ih
      · simp only [if_neg h1]
        by_cases h2 : k = k'
        · subst h2
          have hbeq : (k == k) = true := by simp
          simp [List.lookup_cons, hbeq, if_neg h1]
        · have hbeq : (k == k') = false := by simp [h2]
          simp only [List.lookup_cons, hbeq]
          exact ih

/-- Writing a reward then reading it back (the key being present). -/
theorem reward_of_set_reward_self (t : ExpReward) (map : ProximityMap)
    (dir : ℕ) (v : ℤ) (h : has_map t map = true) :
    reward_of (set_reward t map dir v) map dir = v := by
  unfold has_map at h
  rw [Option.isSome_iff_exists] at h
  obtain ⟨inner, hinner⟩ := h
  unfold reward_of
  rw [lookup_set_reward, if_pos rfl, hinner]
  simp [lookup_set_dir_self]

/-- After `ensure_map`, the key is present. -/
theorem has_map_ensure_map_self (t : ExpReward) (map : ProximityMap) :
    has_map (ensure_map t map) map = true := by
  unfold ensure_map
  cases h : has_map t map with
  | true => simp [h]
  | false =>
    simp only [h, Bool.false_eq_true, if_false]
    have hnone : List.lookup map t = none := by
      unfold has_map at h
      cases hlk : List.lookup map t with
      | none => rfl
      | some w => rw [hlk] at h; simp at h
    unfold has_map add_map
    rw [lookup_append_of_eq_none _ _ _ hnone]
    simp [List.lookup_cons]

/-- `ensure_map` preserves keys already present. -/
theorem has_map_ensure_map_of_has_map (t : ExpReward) (map k : ProximityMap)
    (h : has_map t k = true) : has_map (ensure_map t map) k = true := by
  unfold ensure_map
  cases hm : has_map t map with
  | true => simp only [hm, if_true]; exact h
  | false =>
    simp only [Bool.false_eq_true, if_false]
    unfold has_map at h ⊢
    unfold add_map
    rw [lookup_append_of_isSome _ _ _ h]
    exact h

end ProximityPlayer

/-- Length of a double loop building one entry per (outer, inner) index. -/
theorem length_flatMap_range_map {α : Type} (n m : ℕ) (f : ℕ → ℕ → α) :
    ((List.range n).flatMap (fun i => (List.range m).map (f i))).length =
      n * m := by
  induction n with
  | zero => simp
  | succ n ih =>
    rw [List.range_succ, List.flatMap_append, List.length_append, ih]
    simp [Nat.succ_mul]

/-- Entry of a double loop at flattened index `i*m + j`. -/
theorem getElem?_flatMap_range_map {α : Type} (n m i j : ℕ) (f : ℕ → ℕ → α)
    (hi : i < n) (hj : j < m) :
    ((List.range n).flatMap (fun a => (List.range m).map (f a)))[i * m + j]? =
      some (f i j) := by
  induction n with
  | zero => omega
  | succ n ih =>
    rw [List.range_succ, List.flatMap_append]
    by_cases h : i < n
    · rw [List.getElem?_append_left]
      · exact ih h
      · rw [length_flatMap_range_map]
        have h1 : i * m + j < (i + 1) * m := by
          rw [Nat.succ_mul]; omega
        have h2 : (i + 1) * m ≤ n * m := Nat.mul_le_mul_right m h
        omega
    · have hi' : i = n := by omega
      subst hi'
      rw [List.getElem?_append_right]
      · rw [length_flatMap_range_map]
        have hidx : i * m + j - i * m = j := by omega
        rw [hidx]
        simp only [List.flatMap_cons, List.flatMap_nil, List.append_nil]
        rw [List.getElem?_map, List.getElem?_range hj]
        rfl
      · rw [length_flatMap_range_map]
        omega

/-- A successful random placement avoids the taboo positions. -/
theorem random_position_ok_not_mem (bounds : ℤ × ℤ × ℤ × ℤ)
    (taboo : List Position) (choice : ℕ) (p : Position)
    (h : Position.random_position bounds taboo choice = Except.ok p) :
    p ∉ taboo := by
  simp only [Position.random_position] at h
  split at h
  · cases h
  · have hp : (Position.free_positions bounds taboo).get _ = p :=
      Except.ok.inj h
    have hmem : p ∈ Position.free_positions bounds taboo := by
      rw [← hp]; exact List.get_mem _ _ _
    unfold Position.free_positions at hmem
    have := (List.mem_filter.mp hmem).2
    simpa using this

/-! ### Concrete states used by the witnesses and counterexamples -/

/-- A default status (used only as the `getD` fallback in statements). -/
def dummy_status : SnakeStatus :=
  ⟨(0, 0, 0, 0), [], ⟨0, 0⟩, 0, true, false⟩

/-- A 3×3 alive game: snake `[(0,0)]`, apple `(1,1)`. -/
def gameA : Snake :=
  ⟨3, 3, (0, 2, 2, 0), [⟨0, 0⟩], ⟨1, 1⟩, 0, true, false⟩

/-- A 3×3 alive game: snake `[(0,0)]`, apple `(1,0)` (one step right). -/
def gameB : Snake :=
  ⟨3, 3, (0, 2, 2, 0), [⟨0, 0⟩], ⟨1, 0⟩, 0, true, false⟩

/-- A 1×2 alive game one move from winning: snake `[(0,0)]`, apple
`(0,1)`. -/
def gameC : Snake :=
  ⟨1, 2, (0, 1, 0, 0), [⟨0, 0⟩], ⟨0, 1⟩, 0, true, false⟩

/-- A dead 1×1 game. -/
def gameD : Snake :=
  ⟨1, 1, (0, 0, 0, 0), [⟨0, 0⟩], ⟨0, 0⟩, 0, false, false⟩

/-- Status 1 of a 3-step trajectory on a 3×3 board: snake `[(0,0)]`,
apple `(1,0)`, alive. -/
def statusA : SnakeStatus :=
  ⟨(0, 2, 2, 0), [⟨0, 0⟩], ⟨1, 0⟩, 0, true, false⟩

/-- Status 2: the snake moved up to `(0,1)`, still alive. -/
def statusB : SnakeStatus :=
  ⟨(0, 2, 2, 0), [⟨0, 1⟩], ⟨1, 0⟩, 0, true, false⟩

/-- Status 3: the snake moved right to `(1,1)` and died. -/
def statusC : SnakeStatus :=
  ⟨(0, 2, 2, 0), [⟨1, 1⟩], ⟨1, 0⟩, 0, false, false⟩

/-- Two statuses whose heads are two cells apart on the x axis (not
reachable in a single move): heads `(0,0)` and `(2,0)`. -/
def statusD : SnakeStatus :=
  ⟨(0, 2, 2, 0), [⟨0, 0⟩], ⟨2, 2⟩, 0, true, false⟩

/-- Companion of `statusD`: head `(2,0)`. -/
def statusE : SnakeStatus :=
  ⟨(0, 2, 2, 0), [⟨2, 0⟩], ⟨2, 2⟩, 0, true, false⟩

/-! ### Claim theorems -/

/-- C9: in every game state in which the game is over (not alive, or won),
requesting a move raises an error (and, the model being a pure state
transformer, produces no successor state: DEAD and WON are terminal, since
`play` is the only state-changing operation). -/
theorem C9_terminal_move_errors (g : Snake)
    (h : g.alive = false ∨ g.win = true) :
    ∀ dir choice : ℕ,
      g.play dir choice = Except.error "Cannot move since the game is over" ∧
      ∀ g' : Snake, ¬ g.play dir choice = Except.ok g' := by
  intro dir choice
  have hover : g.is_game_over = true := by
    unfold Snake.is_game_over
    rcases h with h | h <;> simp [h]
  constructor
  · unfold Snake.play
    rw [if_pos hover]
  · intro g' hok
    unfold Snake.play at hok
    rw [if_pos hover] at hok
    cases hok

/-- Witness for C9 on a concrete dead game. -/
theorem C9_terminal_move_errors_witness :
    gameD.play 0 0 = Except.error "Cannot move since the game is over" :=
  (C9_terminal_move_errors gameD (Or.inl rfl) 0 0).1

/-- C5: from a playing (non-terminal) state, a valid move whose candidate
head position is out of bounds or on the snake body yields exactly the
same state with only the alive flag cleared (body, apple, score, win flag
unchanged). -/
theorem C5_fatal_move_only_clears_alive (g : Snake) (dir choice : ℕ)
    (next_pos : Position)
    (hover : g.is_game_over = false)
    (hmove : g.get_snake_head_position.move dir = Except.ok next_pos)
    (hfatal : next_pos.is_out_of_bounds g.bounds = true ∨
              g.snake.contains next_pos = true) :
    g.play dir choice = Except.ok { g with alive := false } := by
  unfold Snake.play
  rw [if_neg (by simp [hover]), hmove]
  rcases hfatal with h | h
  · simp [h]
  · have hmem : next_pos ∈ g.snake := by simpa using h
    simp [hmem]

/-- Witness for C5: moving left from `(0,0)` exits the board and only the
alive flag changes. -/
theorem C5_fatal_move_only_clears_alive_witness :
    gameA.play Position.LEFT 0 = Except.ok { gameA with alive := false } :=
  C5_fatal_move_only_clears_alive gameA Position.LEFT 0 ⟨-1, 0⟩ (by rfl)
    (by rfl) (Or.inl (by decide))

/-- C6: from a playing state, a valid non-fatal move either eats the apple
(candidate head equals the apple): score +1 and length +1, head appended
with no tail removal — or does not: score and length unchanged, tail
removed and head appended. -/
theorem C6_eat_grows_else_slides (g : Snake) (dir choice : ℕ)
    (next_pos : Position) (g' : Snake)
    (hne : g.snake ≠ [])
    (hover : g.is_game_over = false)
    (hmove : g.get_snake_head_position.move dir = Except.ok next_pos)
    (hoob : next_pos.is_out_of_bounds g.bounds = false)
    (hbite : g.snake.contains next_pos = false)
    (hok : g.play dir choice = Except.ok g') :
    (next_pos = g.apple →
       g'.score = g.score + 1 ∧ g'.snake.length = g.snake.length + 1 ∧
       g'.snake = g.snake ++ [next_pos]) ∧
    (next_pos ≠ g.apple →
       g'.score = g.score ∧ g'.snake.length = g.snake.length ∧
       g'.snake = g.snake.tail ++ [next_pos]) := by
  have hnb : ¬ next_pos ∈ g.snake := by simpa using hbite
  by_cases happle : next_pos = g.apple
  · subst happle
    by_cases hwin : (g.snake ++ [g.apple]).length = g.width * g.height
    · have hplay : g.play dir choice =
          Except.ok { g with snake := g.snake ++ [g.apple],
                             score := g.score + 1, win := true } := by
        unfold Snake.play
        rw [if_neg (by simp [hover]), hmove]
        have hwin' : g.snake.length + 1 = g.width * g.height := by
          simpa using hwin
        simp [hoob, hnb, hwin']
      rw [hplay] at hok
      cases hok
      exact ⟨fun _ => ⟨rfl, by simp, rfl⟩, fun h => absurd rfl h⟩
    · cases hrand : Position.random_position g.bounds (g.snake ++ [g.apple])
          choice with
      | error e =>
        have hplay : g.play dir choice = Except.error e := by
          unfold Snake.play
          rw [if_neg (by simp [hover]), hmove]
          have hwin' : ¬ g.snake.length + 1 = g.width * g.height := by
            simpa using hwin
          simp [hoob, hnb, hwin', hrand]
        rw [hplay] at hok
        cases hok
      | ok new_apple =>
        have hplay : g.play dir choice =
            Except.ok { g with snake := g.snake ++ [g.apple],
                               score := g.score + 1, apple := new_apple } := by
          unfold Snake.play
          rw [if_neg (by simp [hover]), hmove]
          have hwin' : ¬ g.snake.length + 1 = g.width * g.height := by
            simpa using hwin
          simp [hoob, hnb, hwin', hrand]
        rw [hplay] at hok
        cases hok
        exact ⟨fun _ => ⟨rfl, by simp, rfl⟩, fun h => absurd rfl h⟩
  · have hplay : g.play dir choice =
        Except.ok { g with snake := (g.snake ++ [next_pos]).tail } := by
      unfold Snake.play
      rw [if_neg (by simp [hover]), hmove]
      simp [hoob, hnb, happle]
    rw [hplay] at hok
    cases hok
    refine ⟨fun h => absurd h happle, fun _ => ?_⟩
    match g.snake, hne with
    | c :: rest, _ =>
      exact ⟨rfl, by simp, by simp⟩

/-- Witness for C6: on a 3×3 board with snake `[(0,0)]` and apple `(1,0)`,
moving right eats the apple: score 0→1, length 1→2. -/
theorem C6_eat_grows_else_slides_witness :
    ((⟨1, 0⟩ : Position) = gameB.apple →
       (⟨3, 3, (0, 2, 2, 0), [⟨0, 0⟩, ⟨1, 0⟩], ⟨0, 1⟩, 1, true, false⟩ :
          Snake).score = gameB.score + 1 ∧
       (⟨3, 3, (0, 2, 2, 0), [⟨0, 0⟩, ⟨1, 0⟩], ⟨0, 1⟩, 1, true, false⟩ :
          Snake).snake.length = gameB.snake.length + 1 ∧
       (⟨3, 3, (0, 2, 2, 0), [⟨0, 0⟩, ⟨1, 0⟩], ⟨0, 1⟩, 1, true, false⟩ :
          Snake).snake = gameB.snake ++ [⟨1, 0⟩]) ∧
    ((⟨1, 0⟩ : Position) ≠ gameB.apple →
       (⟨3, 3, (0, 2, 2, 0), [⟨0, 0⟩, ⟨1, 0⟩], ⟨0, 1⟩, 1, true, false⟩ :
          Snake).score = gameB.score ∧
       (⟨3, 3, (0, 2, 2, 0), [⟨0, 0⟩, ⟨1, 0⟩], ⟨0, 1⟩, 1, true, false⟩ :
          Snake).snake.length = gameB.snake.length ∧
       (⟨3, 3, (0, 2, 2, 0), [⟨0, 0⟩, ⟨1, 0⟩], ⟨0, 1⟩, 1, true, false⟩ :
          Snake).snake = gameB.snake.tail ++ [⟨1, 0⟩]) :=
  C6_eat_grows_else_slides gameB Position.RIGHT 0 ⟨1, 0⟩ _ (by decide)
    (by rfl) (by rfl) (by decide) (by decide) (by rfl)

/-- C7: eating the apple with the body then filling the board sets the won
flag and places no new apple (the apple field is unchanged); otherwise the
win flag is unchanged and the new apple is on a cell not occupied by the
snake. -/
theorem C7_win_no_apple_else_respawn (g : Snake) (dir choice : ℕ)
    (next_pos : Position) (g' : Snake)
    (hover : g.is_game_over = false)
    (hmove : g.get_snake_head_position.move dir = Except.ok next_pos)
    (hoob : next_pos.is_out_of_bounds g.bounds = false)
    (hbite : g.snake.contains next_pos = false)
    (happle : next_pos = g.apple)
    (hok : g.play dir choice = Except.ok g') :
    ((g.snake ++ [next_pos]).length = g.width * g.height →
       g'.win = true ∧ g'.apple = g.apple) ∧
    ((g.snake ++ [next_pos]).length ≠ g.width * g.height →
       g'.win = g.win ∧ g'.apple ∉ g'.snake) := by
  have hnb : ¬ next_pos ∈ g.snake := by simpa using hbite
  subst happle
  by_cases hwin : (g.snake ++ [g.apple]).length = g.width * g.height
  · have hplay : g.play dir choice =
        Except.ok { g with snake := g.snake ++ [g.apple],
                           score := g.score + 1, win := true } := by
      unfold Snake.play
      rw [if_neg (by simp [hover]), hmove]
      have hwin' : g.snake.length + 1 = g.width * g.height := by
        simpa using hwin
      simp [hoob, hnb, hwin']
    rw [hplay] at hok
    cases hok
    exact ⟨fun _ => ⟨rfl, rfl⟩, fun h => absurd hwin h⟩
  · cases hrand : Position.random_position g.bounds (g.snake ++ [g.apple])
        choice with
    | error e =>
      have hplay : g.play dir choice = Except.error e := by
        unfold Snake.play
        rw [if_neg (by simp [hover]), hmove]
        have hwin' : ¬ g.snake.length + 1 = g.width * g.height := by
          simpa using hwin
        simp [hoob, hnb, hwin', hrand]
      rw [hplay] at hok
      cases hok
    | ok new_apple =>
      have hplay : g.play dir choice =
          Except.ok { g with snake := g.snake ++ [g.apple],
                             score := g.score + 1, apple := new_apple } := by
        unfold Snake.play
        rw [if_neg (by simp [hover]), hmove]
        have hwin' : ¬ g.snake.length + 1 = g.width * g.height := by
          simpa using hwin
        simp [hoob, hnb, hwin', hrand]
      rw [hplay] at hok
      cases hok
      refine ⟨fun h => absurd h hwin, fun _ => ⟨rfl, ?_⟩⟩
      exact random_position_ok_not_mem _ _ _ _ hrand

/-- Witness for C7: on the 1×2 board, moving up eats the apple, fills the
board, sets won, and leaves the apple field unchanged. -/
theorem C7_win_no_apple_else_respawn_witness :
    ((gameC.snake ++ [(⟨0, 1⟩ : Position)]).length =
        gameC.width * gameC.height →
       (⟨1, 2, (0, 1, 0, 0), [⟨0, 0⟩, ⟨0, 1⟩], ⟨0, 1⟩, 1, true, true⟩ :
          Snake).win = true ∧
       (⟨1, 2, (0, 1, 0, 0), [⟨0, 0⟩, ⟨0, 1⟩], ⟨0, 1⟩, 1, true, true⟩ :
          Snake).apple = gameC.apple) ∧
    ((gameC.snake ++ [(⟨0, 1⟩ : Position)]).length ≠
        gameC.width * gameC.height →
       (⟨1, 2, (0, 1, 0, 0), [⟨0, 0⟩, ⟨0, 1⟩], ⟨0, 1⟩, 1, true, true⟩ :
          Snake).win = gameC.win ∧
       (⟨1, 2, (0, 1, 0, 0), [⟨0, 0⟩, ⟨0, 1⟩], ⟨0, 1⟩, 1, true, true⟩ :
          Snake).apple ∉
         (⟨1, 2, (0, 1, 0, 0), [⟨0, 0⟩, ⟨0, 1⟩], ⟨0, 1⟩, 1, true, true⟩ :
            Snake).snake) :=
  C7_win_no_apple_else_respawn gameC Position.UP 0 ⟨0, 1⟩ _ (by rfl)
    (by rfl) (by decide) (by decide) (by decide) (by rfl)

/-- C10 (implicit): a move that wins the game leaves the apple field equal
to the new head (the just-eaten cell), so the status reported in the won
state has its apple on the snake body — the apple-distinct-from-snake
property fails in the won state. -/
theorem C10_won_apple_on_snake (g : Snake) (dir choice : ℕ) (g' : Snake)
    (hwin0 : g.win = false)
    (hok : g.play dir choice = Except.ok g')
    (hwin1 : g'.win = true) :
    g'.apple = g'.snake.getLastD ⟨0, 0⟩ ∧ g'.apple ∈ g'.snake ∧
    g'.get_status.apple ∈ g'.get_status.snake := by
  unfold Snake.play at hok
  by_cases hover : g.is_game_over = true
  · rw [if_pos hover] at hok; cases hok
  · rw [if_neg hover] at hok
    cases hmv : g.get_snake_head_position.move dir with
    | error e => simp only [hmv] at hok; cases hok
    | ok next_pos =>
      simp only [hmv] at hok
      by_cases hfat : (next_pos.is_out_of_bounds g.bounds ||
          g.snake.contains next_pos) = true
      · rw [if_pos hfat] at hok
        cases hok
        simp only at hwin1
        rw [hwin1] at hwin0
        cases hwin0
      · rw [if_neg hfat] at hok
        by_cases happle : next_pos = g.apple
        · rw [if_pos happle] at hok
          by_cases hfull : (g.snake ++ [next_pos]).length =
              g.width * g.height
          · rw [if_pos hfull] at hok
            cases hok
            simp only [Snake.get_status]
            rw [← happle]
            exact ⟨by simp [List.getLastD_concat], by simp, by simp⟩
          · rw [if_neg hfull] at hok
            cases hrand : Position.random_position g.bounds
                (g.snake ++ [next_pos]) choice with
            | error e => simp only [hrand] at hok; cases hok
            | ok new_apple =>
              simp only [hrand] at hok
              cases hok
              simp only at hwin1
              rw [hwin1] at hwin0
              cases hwin0
        · rw [if_neg happle] at hok
          cases hok
          simp only at hwin1
          rw [hwin1] at hwin0
          cases hwin0

/-- Witness for C10 on the 1×2 winning move. -/
theorem C10_won_apple_on_snake_witness :
    (⟨1, 2, (0, 1, 0, 0), [⟨0, 0⟩, ⟨0, 1⟩], ⟨0, 1⟩, 1, true, true⟩ :
       Snake).apple =
      (⟨1, 2, (0, 1, 0, 0), [⟨0, 0⟩, ⟨0, 1⟩], ⟨0, 1⟩, 1, true, true⟩ :
       Snake).snake.getLastD ⟨0, 0⟩ ∧
    (⟨1, 2, (0, 1, 0, 0), [⟨0, 0⟩, ⟨0, 1⟩], ⟨0, 1⟩, 1, true, true⟩ :
       Snake).apple ∈
      (⟨1, 2, (0, 1, 0, 0), [⟨0, 0⟩, ⟨0, 1⟩], ⟨0, 1⟩, 1, true, true⟩ :
       Snake).snake ∧
    (⟨1, 2, (0, 1, 0, 0), [⟨0, 0⟩, ⟨0, 1⟩], ⟨0, 1⟩, 1, true, true⟩ :
       Snake).get_status.apple ∈
      (⟨1, 2, (0, 1, 0, 0), [⟨0, 0⟩, ⟨0, 1⟩], ⟨0, 1⟩, 1, true, true⟩ :
       Snake).get_status.snake :=
  C10_won_apple_on_snake gameC Position.UP 0 _ (by rfl) (by rfl) (by rfl)

/-- C4 (evaluation at the failing input): for two statuses whose heads are
`(0,0)` and `(2,0)` — two unit steps apart on the x axis, hence not
reachable by exactly one unit step — `_retrieve_movement` returns RIGHT
and raises no error, although both the claim and the function's own
docstring require an error here. -/
theorem C4_nonadjacent_heads_no_error :
    ProximityPlayer.retrieve_movement statusD statusE =
      Except.ok Position.RIGHT ∧
    (statusE.snake.getLastD ⟨0, 0⟩).x - (statusD.snake.getLastD ⟨0, 0⟩).x = 2 ∧
    (statusE.snake.getLastD ⟨0, 0⟩).y = (statusD.snake.getLastD ⟨0, 0⟩).y :=
  ⟨by rfl, by decide, by decide⟩

/-- C8: the observation key consists of `(2·radius+1)²` danger entries in
raster order (dy outer, dx inner, both from −radius to radius), each
`MAP_DEATH` exactly when the window cell is out of bounds or on the snake
body and `MAP_NONE` otherwise, followed by the apple offset from the head,
componentwise clamped to `[−radius−1, radius+1]`; encoding is a function
of the status value, so value-equal statuses get equal keys. -/
theorem C8_encoder_characterization (radius : ℕ) (st : SnakeStatus)
    (h : st.snake ≠ []) :
    (ProximityPlayer.retrieve_proximity_map radius st).length =
      (2 * radius + 1) * (2 * radius + 1) + 2 ∧
    (∀ i j : ℕ, i < 2 * radius + 1 → j < 2 * radius + 1 →
      (ProximityPlayer.retrieve_proximity_map radius st)[i * (2 * radius + 1) + j]? =
        some (if (Position.mk ((st.snake.getLast h).x + ((j : ℤ) - radius))
                    ((st.snake.getLast h).y + ((i : ℤ) - radius))).is_out_of_bounds
                    st.bounds
                  || st.snake.contains
                      (Position.mk ((st.snake.getLast h).x + ((j : ℤ) - radius))
                        ((st.snake.getLast h).y + ((i : ℤ) - radius))) then
                ProximityPlayer.MAP_DEATH
              else ProximityPlayer.MAP_NONE)) ∧
    (ProximityPlayer.retrieve_proximity_map radius st)[(2 * radius + 1) * (2 * radius + 1)]? =
      some (if st.apple.x - (st.snake.getLast h).x > (radius : ℤ) then
              (radius : ℤ) + 1
            else if st.apple.x - (st.snake.getLast h).x < -(radius : ℤ) then
              -(radius : ℤ) - 1
            else st.apple.x - (st.snake.getLast h).x) ∧
    (ProximityPlayer.retrieve_proximity_map radius st)[(2 * radius + 1) * (2 * radius + 1) + 1]? =
      some (if st.apple.y - (st.snake.getLast h).y > (radius : ℤ) then
              (radius : ℤ) + 1
            else if st.apple.y - (st.snake.getLast h).y < -(radius : ℤ) then
              -(radius : ℤ) - 1
            else st.apple.y - (st.snake.getLast h).y) ∧
    (∀ a : ℤ,
      (ProximityPlayer.retrieve_proximity_map radius st)[(2 * radius + 1) * (2 * radius + 1)]? = some a ∨
      (ProximityPlayer.retrieve_proximity_map radius st)[(2 * radius + 1) * (2 * radius + 1) + 1]? = some a →
      -(radius : ℤ) - 1 ≤ a ∧ a ≤ (radius : ℤ) + 1) ∧
    (∀ st2 : SnakeStatus, st = st2 →
      ProximityPlayer.retrieve_proximity_map radius st =
        ProximityPlayer.retrieve_proximity_map radius st2) := by
  have hlast : st.snake.getLastD ⟨0, 0⟩ = st.snake.getLast h := by
    rw [List.getLastD_eq_getLast?, List.getLast?_eq_getLast st.snake h]
    rfl
  have hmap : ProximityPlayer.retrieve_proximity_map radius st =
      ((List.range (2 * radius + 1)).flatMap (fun (i : ℕ) =>
        (List.range (2 * radius + 1)).map (fun (j : ℕ) =>
          if (Position.mk ((st.snake.getLast h).x + ((j : ℤ) - radius))
                ((st.snake.getLast h).y + ((i : ℤ) - radius))).is_out_of_bounds
                st.bounds
              || st.snake.contains
                  (Position.mk ((st.snake.getLast h).x + ((j : ℤ) - radius))
                    ((st.snake.getLast h).y + ((i : ℤ) - radius))) then
            ProximityPlayer.MAP_DEATH
          else ProximityPlayer.MAP_NONE))) ++
      [if st.apple.x - (st.snake.getLast h).x > (radius : ℤ) then
         (radius : ℤ) + 1
       else if st.apple.x - (st.snake.getLast h).x < -(radius : ℤ) then
         -(radius : ℤ) - 1
       else st.apple.x - (st.snake.getLast h).x,
       if st.apple.y - (st.snake.getLast h).y > (radius : ℤ) then
         (radius : ℤ) + 1
       else if st.apple.y - (st.snake.getLast h).y < -(radius : ℤ) then
         -(radius : ℤ) - 1
       else st.apple.y - (st.snake.getLast h).y] := by
    simp only [ProximityPlayer.retrieve_proximity_map, hlast]
  have hdanger_len :
      ((List.range (2 * radius + 1)).flatMap (fun (i : ℕ) =>
        (List.range (2 * radius + 1)).map (fun (j : ℕ) =>
          if (Position.mk ((st.snake.getLast h).x + ((j : ℤ) - radius))
                ((st.snake.getLast h).y + ((i : ℤ) - radius))).is_out_of_bounds
                st.bounds
              || st.snake.contains
                  (Position.mk ((st.snake.getLast h).x + ((j : ℤ) - radius))
                    ((st.snake.getLast h).y + ((i : ℤ) - radius))) then
            ProximityPlayer.MAP_DEATH
          else ProximityPlayer.MAP_NONE))).length =
        (2 * radius + 1) * (2 * radius + 1) :=
    length_flatMap_range_map _ _ _
  refine ⟨?_, ?_, ?_, ?_, ?_, ?_⟩
  · rw [hmap, List.length_append, hdanger_len]
    rfl
  · intro i j hi hj
    rw [hmap]
    rw [List.getElem?_append_left]
    · exact getElem?_flatMap_range_map _ _ _ _ _ hi hj
    · rw [hdanger_len]
      have h1 : i * (2 * radius + 1) + j < (i + 1) * (2 * radius + 1) := by
        rw [Nat.add_mul i 1 (2 * radius + 1)]; omega
      have h2 : (i + 1) * (2 * radius + 1) ≤
          (2 * radius + 1) * (2 * radius + 1) :=
        Nat.mul_le_mul_right _ hi
      omega
  · rw [hmap, List.getElem?_append_right (by rw [hdanger_len])]
    rw [hdanger_len, Nat.sub_self]
    rfl
  · rw [hmap, List.getElem?_append_right (by rw [hdanger_len]; omega)]
    rw [hdanger_len, Nat.add_sub_cancel_left]
    rfl
  · intro a ha
    have hx := hmap
    rcases ha with ha | ha
    · rw [hmap, List.getElem?_append_right (by rw [hdanger_len]),
        hdanger_len, Nat.sub_self] at ha
      have ha' : (if st.apple.x - (st.snake.getLast h).x > (radius : ℤ) then
            (radius : ℤ) + 1
          else if st.apple.x - (st.snake.getLast h).x < -(radius : ℤ) then
            -(radius : ℤ) - 1
          else st.apple.x - (st.snake.getLast h).x) = a := by
        have := ha
        simp only [List.getElem?_cons_zero] at this
        exact Option.some.inj this
      rw [← ha']
      split
      · omega
      · split <;> omega
    · rw [hmap, List.getElem?_append_right (by rw [hdanger_len]; omega),
        hdanger_len, Nat.add_sub_cancel_left] at ha
      have ha' : (if st.apple.y - (st.snake.getLast h).y > (radius : ℤ) then
            (radius : ℤ) + 1
          else if st.apple.y - (st.snake.getLast h).y < -(radius : ℤ) then
            -(radius : ℤ) - 1
          else st.apple.y - (st.snake.getLast h).y) = a := by
        have := ha
        simp only [List.getElem?_cons_succ, List.getElem?_cons_zero] at this
        exact Option.some.inj this
      rw [← ha']
      split
      · omega
      · split <;> omega
  · intro st2 h2
    rw [h2]

/-- The default entries of a freshly added key are `REWARD_NONE = 0` for
each of the four directions. -/
theorem ProximityPlayer.reward_of_add_map_self (t : ExpReward)
    (map : ProximityMap) (d : ℕ)
    (h : ProximityPlayer.has_map t map = false)
    (hd : d ∈ Position.DIRECTIONS) :
    ProximityPlayer.reward_of (ProximityPlayer.add_map t map) map d = 0 := by
  have hnone : t.lookup map = none := by
    unfold ProximityPlayer.has_map at h
    cases hlk : t.lookup map with
    | none => rfl
    | some w => rw [hlk] at h; simp at h
  unfold ProximityPlayer.reward_of ProximityPlayer.add_map
  rw [lookup_append_of_eq_none _ _ _ hnone]
  simp only [List.lookup_cons, beq_self_eq_true]
  simp only [Position.DIRECTIONS, Position.LEFT, Position.UP, Position.RIGHT,
    Position.DOWN, List.mem_cons, List.not_mem_nil, or_false] at hd
  rcases hd with rfl | rfl | rfl | rfl <;> rfl

/-- C1: `compute_move` encodes the status into an observation key, lazily
initializes the key's four direction entries to 0 when the key is unseen
(and leaves the table untouched when it is seen), and the candidate list
from which the returned direction is drawn uniformly at random is exactly
the nonempty set of directions whose stored reward equals the maximum
stored reward over the four directions. -/
theorem C1_compute_move_argmax (p : ProximityPlayer) (status : SnakeStatus) :
    (ProximityPlayer.has_map p.exp_reward
        (ProximityPlayer.retrieve_proximity_map p.radius status) = false →
      (p.compute_move status).1.exp_reward =
        ProximityPlayer.add_map p.exp_reward
          (ProximityPlayer.retrieve_proximity_map p.radius status) ∧
      ∀ d ∈ Position.DIRECTIONS,
        ProximityPlayer.reward_of (p.compute_move status).1.exp_reward
          (ProximityPlayer.retrieve_proximity_map p.radius status) d = 0) ∧
    (ProximityPlayer.has_map p.exp_reward
        (ProximityPlayer.retrieve_proximity_map p.radius status) = true →
      (p.compute_move status).1 = p) ∧
    (p.compute_move status).2 ≠ [] ∧
    (∀ d : ℕ, d ∈ (p.compute_move status).2 ↔
      d ∈ Position.DIRECTIONS ∧
      ProximityPlayer.reward_of (p.compute_move status).1.exp_reward
          (ProximityPlayer.retrieve_proximity_map p.radius status) d =
        list_max (Position.DIRECTIONS.map
          (ProximityPlayer.reward_of (p.compute_move status).1.exp_reward
            (ProximityPlayer.retrieve_proximity_map p.radius status)))) := by
  set k := ProximityPlayer.retrieve_proximity_map p.radius status with hk
  set t := ProximityPlayer.ensure_map p.exp_reward k with ht
  have hcm : p.compute_move status =
      ({ p with exp_reward := t },
       Position.DIRECTIONS.filter (fun dir =>
         decide (ProximityPlayer.reward_of t k dir =
           list_max (Position.DIRECTIONS.map (fun dir =>
             ProximityPlayer.reward_of t k dir))))) := by
    rw [ht, hk]
    simp only [ProximityPlayer.compute_move]
  refine ⟨?_, ?_, ?_, ?_⟩
  · intro hfalse
    constructor
    · rw [hcm, ht]
      simp only [ProximityPlayer.ensure_map, hfalse, Bool.false_eq_true,
        if_false]
    · intro d hd
      rw [hcm, ht]
      simp only [ProximityPlayer.ensure_map, hfalse, Bool.false_eq_true,
        if_false]
      exact ProximityPlayer.reward_of_add_map_self _ _ _ hfalse hd
  · intro htrue
    rw [hcm, ht]
    simp only [ProximityPlayer.ensure_map, htrue, if_true]
  · rw [hcm]
    simp only [ne_eq]
    have hne : (Position.DIRECTIONS.map (fun dir =>
        ProximityPlayer.reward_of t k dir)) ≠ [] := by
      simp [Position.DIRECTIONS]
    have hmem := list_max_mem _ hne
    rw [List.mem_map] at hmem
    obtain ⟨d, hd, hfd⟩ := hmem
    intro hnil
    have hdin : d ∈ Position.DIRECTIONS.filter (fun dir =>
        decide (ProximityPlayer.reward_of t k dir =
          list_max (Position.DIRECTIONS.map (fun dir =>
            ProximityPlayer.reward_of t k dir)))) :=
      List.mem_filter.mpr ⟨hd, by simp [hfd]⟩
    rw [hnil] at hdin
    cases hdin
  · intro d
    rw [hcm]
    simp only [List.mem_filter, decide_eq_true_eq]

/-- Witness for C1 on a fresh player and a concrete status: the candidate
list is non-empty and LEFT is among the maximizers. -/
theorem C1_compute_move_argmax_witness :
    ((⟨1, 1, []⟩ : ProximityPlayer).compute_move statusA).2 ≠ [] ∧
    Position.LEFT ∈ ((⟨1, 1, []⟩ : ProximityPlayer).compute_move statusA).2 := by
  have h := C1_compute_move_argmax ⟨1, 1, []⟩ statusA
  exact ⟨h.2.2.1, (h.2.2.2 Position.LEFT).mpr ⟨by decide, by decide⟩⟩

/-- The reward case analysis, phrased on the alive flag directly. -/
theorem ProximityPlayer.retrieve_reward_cases (curr next : SnakeStatus) :
    ProximityPlayer.retrieve_reward curr next =
      if next.alive = false then ProximityPlayer.REWARD_DEATH
      else if curr.score < next.score then ProximityPlayer.REWARD_APPLE
      else ProximityPlayer.REWARD_NONE := by
  unfold ProximityPlayer.retrieve_reward
  by_cases h : next.alive <;> simp [h]

/-- Sample construction: one sample per adjacent pair of the history, in
chronological order, carrying both encoded keys, the inferred move, and
the transition reward. -/
theorem ProximityPlayer.history_to_samples_spec (radius : ℕ) :
    ∀ (history : List SnakeStatus) (samples : List ProximityPlayer.Sample),
      ProximityPlayer.history_to_samples radius history = Except.ok samples →
      samples.length = history.length - 1 ∧
      ∀ i : ℕ, i + 1 < history.length →
        (samples.getD i default).1 =
          ProximityPlayer.retrieve_proximity_map radius
            (history.getD i dummy_status) ∧
        (samples.getD i default).2.1 =
          ProximityPlayer.retrieve_proximity_map radius
            (history.getD (i + 1) dummy_status) ∧
        ProximityPlayer.retrieve_movement (history.getD i dummy_status)
            (history.getD (i + 1) dummy_status) =
          Except.ok (samples.getD i default).2.2.1 ∧
        (samples.getD i default).2.2.2 =
          (if (history.getD (i + 1) dummy_status).alive = false then
             ProximityPlayer.REWARD_DEATH
           else if (history.getD i dummy_status).score <
               (history.getD (i + 1) dummy_status).score then
             ProximityPlayer.REWARD_APPLE
           else ProximityPlayer.REWARD_NONE) := by
  intro history
  induction history with
  | nil =>
    intro samples hs
    unfold ProximityPlayer.history_to_samples at hs
    cases hs
    exact ⟨rfl, fun i hi => absurd hi (by simp)⟩
  | cons curr rest ih =>
    intro samples hs
    cases rest with
    | nil =>
      unfold ProximityPlayer.history_to_samples at hs
      cases hs
      exact ⟨rfl, fun i hi => absurd hi (by simp)⟩
    | cons nxt rest' =>
      unfold ProximityPlayer.history_to_samples at hs
      cases hmv : ProximityPlayer.retrieve_movement curr nxt with
      | error e => rw [hmv] at hs; cases hs
      | ok mv =>
        rw [hmv] at hs
        cases htl : ProximityPlayer.history_to_samples radius (nxt :: rest')
            with
        | error e => rw [htl] at hs; cases hs
        | ok tail =>
          rw [htl] at hs
          cases hs
          obtain ⟨hlen, hidx⟩ := ih tail htl
          constructor
          · simp only [List.length_cons]
            rw [hlen]
            simp
          · intro i hi
            cases i with
            | zero =>
              refine ⟨rfl, rfl, ?_, ?_⟩
              · simpa using hmv
              · simpa using ProximityPlayer.retrieve_reward_cases curr nxt
            | succ i' =>
              have hi' : i' + 1 < (nxt :: rest').length := by
                simpa using hi
              have := hidx i' hi'
              simpa [List.getD_cons_succ] using this

/-- The descending-index training loop processes the samples in reverse
chronological order: it folds the update over the reversed prefix. -/
theorem ProximityPlayer.train_loop_eq_foldl_reverse (gamma : ℚ)
    (samples : List ProximityPlayer.Sample) :
    ∀ (n : ℕ), n ≤ samples.length → ∀ (t : ExpReward),
      ProximityPlayer.train_loop gamma samples t n =
        ((samples.take n).reverse).foldl
          (ProximityPlayer.train_step gamma) t := by
  intro n
  induction n with
  | zero => intro _ t; simp [ProximityPlayer.train_loop]
  | succ n ih =>
    intro hn t
    have hlt : n < samples.length := by omega
    have hget : samples[n]? = some (samples.getD n default) := by
      rw [List.getD_eq_getElem?_getD]
      cases hx : samples[n]? with
      | none =>
        rw [List.getElem?_eq_none_iff] at hx
        omega
      | some s => rfl
    unfold ProximityPlayer.train_loop
    rw [ih (by omega)]
    rw [List.take_succ, hget]
    simp [List.reverse_append]

/-- C3: for every trajectory, transition samples are built for each
adjacent status pair — reward DEATH_REWARD when the next status is not
alive, APPLE_REWARD when the score strictly increased, NONE_REWARD
otherwise — and `train` processes them in reverse chronological order
(last transition first), folding each update over the table produced by
the updates of the later transitions. -/
theorem C3_samples_and_reverse_order :
    (∀ (radius : ℕ) (history : List SnakeStatus)
        (samples : List ProximityPlayer.Sample),
      ProximityPlayer.history_to_samples radius history = Except.ok samples →
      samples.length = history.length - 1 ∧
      ∀ i : ℕ, i + 1 < history.length →
        (samples.getD i default).1 =
          ProximityPlayer.retrieve_proximity_map radius
            (history.getD i dummy_status) ∧
        (samples.getD i default).2.1 =
          ProximityPlayer.retrieve_proximity_map radius
            (history.getD (i + 1) dummy_status) ∧
        ProximityPlayer.retrieve_movement (history.getD i dummy_status)
            (history.getD (i + 1) dummy_status) =
          Except.ok (samples.getD i default).2.2.1 ∧
        (samples.getD i default).2.2.2 =
          (if (history.getD (i + 1) dummy_status).alive = false then
             ProximityPlayer.REWARD_DEATH
           else if (history.getD i dummy_status).score <
               (history.getD (i + 1) dummy_status).score then
             ProximityPlayer.REWARD_APPLE
           else ProximityPlayer.REWARD_NONE)) ∧
    (∀ (p : ProximityPlayer) (history : List SnakeStatus)
        (samples : List ProximityPlayer.Sample),
      ProximityPlayer.history_to_samples p.radius history =
        Except.ok samples →
      p.train history = Except.ok
        ⟨p.radius, p.gamma, samples.reverse.foldl
          (ProximityPlayer.train_step p.gamma) p.exp_reward⟩) := by
  constructor
  · exact ProximityPlayer.history_to_samples_spec
  · intro p history samples hs
    unfold ProximityPlayer.train
    simp only [hs]
    rw [ProximityPlayer.train_loop_eq_foldl_reverse p.gamma samples
      samples.length (le_refl _) p.exp_reward]
    rw [List.take_length]

/-- Witness for C3 on the concrete 3-status trajectory ending in death. -/
theorem C3_samples_and_reverse_order_witness :
    (([([1, 1, 0], [1, 1, -1], 1, 0), ([1, 1, -1], [1, 0, -1], 2, -1)] :
        List ProximityPlayer.Sample)).length =
      ([statusA, statusB, statusC] : List SnakeStatus).length - 1 ∧
    ProximityPlayer.train ⟨0, 1, []⟩ [statusA, statusB, statusC] =
      Except.ok ⟨0, 1,
        (([([1, 1, 0], [1, 1, -1], 1, 0),
           ([1, 1, -1], [1, 0, -1], 2, -1)] :
            List ProximityPlayer.Sample)).reverse.foldl
          (ProximityPlayer.train_step 1) []⟩ := by
  have h := C3_samples_and_reverse_order
  exact ⟨(h.1 0 [statusA, statusB, statusC] _ (by rfl)).1,
         h.2 ⟨0, 1, []⟩ [statusA, statusB, statusC] _ (by rfl)⟩

/-- Training a fresh radius-0 player on the 3-step trajectory ending in
death, for an arbitrary gamma: the death transition's entry becomes
`int(-1 + gamma·0) = -1` and the preceding transition's entry becomes
`int(0 + gamma·0) = 0`, since in both updates the next key's maximum over
the four directions is 0. -/
theorem train_death_trajectory (gamma : ℚ) :
    ProximityPlayer.train ⟨0, gamma, []⟩ [statusA, statusB, statusC] =
      Except.ok ⟨0, gamma,
        [([1, 1, -1], [(0, 0), (1, 0), (2, -1), (3, 0)]),
         ([1, 0, -1], [(0, 0), (1, 0), (2, 0), (3, 0)]),
         ([1, 1, 0], [(0, 0), (1, 0), (2, 0), (3, 0)])]⟩ := by
  have hsamp : ProximityPlayer.history_to_samples
      (⟨0, gamma, []⟩ : ProximityPlayer).radius
      [statusA, statusB, statusC] =
      Except.ok [([1, 1, 0], [1, 1, -1], 1, 0),
                 ([1, 1, -1], [1, 0, -1], 2, -1)] := by rfl
  have harg1 : ((-1 : ℤ) : ℚ) + gamma * ((0 : ℤ) : ℚ) =
      ((-1 : ℤ) : ℚ) := by push_cast; ring
  have h1 : ProximityPlayer.train_step gamma []
      ([1, 1, -1], [1, 0, -1], 2, -1) =
      [([1, 1, -1], [(0, 0), (1, 0), (2, -1), (3, 0)]),
       ([1, 0, -1], [(0, 0), (1, 0), (2, 0), (3, 0)])] := by
    show ProximityPlayer.set_reward
      [([1, 1, -1], [(0, 0), (1, 0), (2, 0), (3, 0)]),
       ([1, 0, -1], [(0, 0), (1, 0), (2, 0), (3, 0)])]
      [1, 1, -1] 2 (py_int (((-1 : ℤ) : ℚ) + gamma * ((0 : ℤ) : ℚ))) = _
    rw [harg1, py_int_intCast]
    rfl
  have harg2 : ((0 : ℤ) : ℚ) + gamma * ((0 : ℤ) : ℚ) =
      ((0 : ℤ) : ℚ) := by push_cast; ring
  have h2 : ProximityPlayer.train_step gamma
      [([1, 1, -1], [(0, 0), (1, 0), (2, -1), (3, 0)]),
       ([1, 0, -1], [(0, 0), (1, 0), (2, 0), (3, 0)])]
      ([1, 1, 0], [1, 1, -1], 1, 0) =
      [([1, 1, -1], [(0, 0), (1, 0), (2, -1), (3, 0)]),
       ([1, 0, -1], [(0, 0), (1, 0), (2, 0), (3, 0)]),
       ([1, 1, 0], [(0, 0), (1, 0), (2, 0), (3, 0)])] := by
    show ProximityPlayer.set_reward
      [([1, 1, -1], [(0, 0), (1, 0), (2, -1), (3, 0)]),
       ([1, 0, -1], [(0, 0), (1, 0), (2, 0), (3, 0)]),
       ([1, 1, 0], [(0, 0), (1, 0), (2, 0), (3, 0)])]
      [1, 1, 0] 1 (py_int (((0 : ℤ) : ℚ) + gamma * ((0 : ℤ) : ℚ))) = _
    rw [harg2, py_int_intCast]
    rfl
  have heq : ProximityPlayer.train_loop gamma
      [([1, 1, 0], [1, 1, -1], 1, 0), ([1, 1, -1], [1, 0, -1], 2, -1)]
      [] 2 =
      [([1, 1, -1], [(0, 0), (1, 0), (2, -1), (3, 0)]),
       ([1, 0, -1], [(0, 0), (1, 0), (2, 0), (3, 0)]),
       ([1, 1, 0], [(0, 0), (1, 0), (2, 0), (3, 0)])] := by
    show ProximityPlayer.train_step gamma
      (ProximityPlayer.train_step gamma []
        ([1, 1, -1], [1, 0, -1], 2, -1))
      ([1, 1, 0], [1, 1, -1], 1, 0) = _
    rw [h1, h2]
  unfold ProximityPlayer.train
  simp only [hsamp]
  exact congrArg (fun tbl =>
    Except.ok (⟨0, gamma, tbl⟩ : ProximityPlayer)) heq

/-- C2 counterexample: on the 3-step death trajectory with gamma = 1 and
all entries initially 0, the death transition's entry is −1 as claimed,
but the preceding sample's entry is 0, not `0 + gamma * DEATH_REWARD`
(= −1 at gamma = 1): `next_best` is the maximum over all four directions
of the next key, and the three directions untouched by the death update
are still 0. -/
theorem C2_counterexample :
    ProximityPlayer.train ⟨0, 1, []⟩ [statusA, statusB, statusC] =
      Except.ok ⟨0, 1,
        [([1, 1, -1], [(0, 0), (1, 0), (2, -1), (3, 0)]),
         ([1, 0, -1], [(0, 0), (1, 0), (2, 0), (3, 0)]),
         ([1, 1, 0], [(0, 0), (1, 0), (2, 0), (3, 0)])]⟩ ∧
    ProximityPlayer.reward_of
        [([1, 1, -1], [(0, 0), (1, 0), (2, -1), (3, 0)]),
         ([1, 0, -1], [(0, 0), (1, 0), (2, 0), (3, 0)]),
         ([1, 1, 0], [(0, 0), (1, 0), (2, 0), (3, 0)])]
        (ProximityPlayer.retrieve_proximity_map 0 statusB)
        Position.RIGHT = ProximityPlayer.REWARD_DEATH ∧
    ProximityPlayer.reward_of
        [([1, 1, -1], [(0, 0), (1, 0), (2, -1), (3, 0)]),
         ([1, 0, -1], [(0, 0), (1, 0), (2, 0), (3, 0)]),
         ([1, 1, 0], [(0, 0), (1, 0), (2, 0), (3, 0)])]
        (ProximityPlayer.retrieve_proximity_map 0 statusA)
        Position.UP = 0 ∧
    ProximityPlayer.reward_of
        [([1, 1, -1], [(0, 0), (1, 0), (2, -1), (3, 0)]),
         ([1, 0, -1], [(0, 0), (1, 0), (2, 0), (3, 0)]),
         ([1, 1, 0], [(0, 0), (1, 0), (2, 0), (3, 0)])]
        (ProximityPlayer.retrieve_proximity_map 0 statusA)
        Position.UP ≠
      ProximityPlayer.REWARD_NONE + 1 * ProximityPlayer.REWARD_DEATH :=
  ⟨train_death_trajectory 1, by decide, by decide, by decide⟩

/-- C2 (amended): every processed sample's entry is overwritten with
`int(reward + gamma * next_best)` — Python's `int` truncation toward
zero — where `next_best` is the maximum stored reward over the four
directions for the next key after the lazy initialization of both keys;
consequently, in the 3-step death trajectory the death transition's
entry becomes −1 for every gamma, while the preceding sample's entry
becomes `int(0 + gamma·0) = 0` (not `gamma * DEATH_REWARD`), because the
three directions of the next key untouched by the death update are
still 0 and dominate the maximum. -/
theorem C2_amended_overwrite_no_backprop :
    (∀ (gamma : ℚ) (t : ExpReward) (cm nm : ProximityMap) (mv : ℕ)
        (rwd : ℤ),
      ProximityPlayer.reward_of
          (ProximityPlayer.train_step gamma t (cm, nm, mv, rwd)) cm mv =
        py_int ((rwd : ℚ) + gamma *
          ((list_max (Position.DIRECTIONS.map (fun d =>
            ProximityPlayer.reward_of
              (ProximityPlayer.ensure_map
                (ProximityPlayer.ensure_map t cm) nm) nm d)) : ℤ) : ℚ))) ∧
    (∀ (gamma : ℚ) (p' : ProximityPlayer),
      ProximityPlayer.train ⟨0, gamma, []⟩ [statusA, statusB, statusC] =
        Except.ok p' →
      ProximityPlayer.reward_of p'.exp_reward
          (ProximityPlayer.retrieve_proximity_map 0 statusB)
          Position.RIGHT = ProximityPlayer.REWARD_DEATH ∧
      ProximityPlayer.reward_of p'.exp_reward
          (ProximityPlayer.retrieve_proximity_map 0 statusA)
          Position.UP = 0) := by
  constructor
  · intro gamma t cm nm mv rwd
    have h1 : ProximityPlayer.has_map
        (ProximityPlayer.ensure_map (ProximityPlayer.ensure_map t cm) nm)
        cm = true :=
      ProximityPlayer.has_map_ensure_map_of_has_map _ _ _
        (ProximityPlayer.has_map_ensure_map_self t cm)
    exact ProximityPlayer.reward_of_set_reward_self _ _ _ _ h1
  · intro gamma p' htr
    rw [train_death_trajectory gamma] at htr
    cases htr
    refine ⟨?_, ?_⟩
    · show ProximityPlayer.reward_of
        [([1, 1, -1], [(0, 0), (1, 0), (2, -1), (3, 0)]),
         ([1, 0, -1], [(0, 0), (1, 0), (2, 0), (3, 0)]),
         ([1, 1, 0], [(0, 0), (1, 0), (2, 0), (3, 0)])]
        (ProximityPlayer.retrieve_proximity_map 0 statusB)
        Position.RIGHT = ProximityPlayer.REWARD_DEATH
      decide
    · show ProximityPlayer.reward_of
        [([1, 1, -1], [(0, 0), (1, 0), (2, -1), (3, 0)]),
         ([1, 0, -1], [(0, 0), (1, 0), (2, 0), (3, 0)]),
         ([1, 1, 0], [(0, 0), (1, 0), (2, 0), (3, 0)])]
        (ProximityPlayer.retrieve_proximity_map 0 statusA)
        Position.UP = 0
      decide

/-- Witness for the amended C2: the overwrite rule evaluated at a
concrete sample, and the concrete trained table for gamma = 1/2. -/
theorem C2_amended_overwrite_no_backprop_witness :
    ProximityPlayer.reward_of
        (ProximityPlayer.train_step (1 / 2) [] ([0], [1], 1, 7)) [0] 1 =
      py_int (((7 : ℤ) : ℚ) + (1 / 2) *
        ((list_max (Position.DIRECTIONS.map (fun d =>
          ProximityPlayer.reward_of
            (ProximityPlayer.ensure_map
              (ProximityPlayer.ensure_map [] [0]) [1]) [1] d)) : ℤ) : ℚ)) ∧
    ProximityPlayer.reward_of
        ((⟨0, 1 / 2,
          [([1, 1, -1], [(0, 0), (1, 0), (2, -1), (3, 0)]),
           ([1, 0, -1], [(0, 0), (1, 0), (2, 0), (3, 0)]),
           ([1, 1, 0], [(0, 0), (1, 0), (2, 0), (3, 0)])]⟩ :
            ProximityPlayer)).exp_reward
        (ProximityPlayer.retrieve_proximity_map 0 statusB)
        Position.RIGHT = ProximityPlayer.REWARD_DEATH ∧
    ProximityPlayer.reward_of
        ((⟨0, 1 / 2,
          [([1, 1, -1], [(0, 0), (1, 0), (2, -1), (3, 0)]),
           ([1, 0, -1], [(0, 0), (1, 0), (2, 0), (3, 0)]),
           ([1, 1, 0], [(0, 0), (1, 0), (2, 0), (3, 0)])]⟩ :
            ProximityPlayer)).exp_reward
        (ProximityPlayer.retrieve_proximity_map 0 statusA)
        Position.UP = 0 := by
  have h := C2_amended_overwrite_no_backprop
  have h2 := h.2 (1 / 2)
    ⟨0, 1 / 2,
      [([1, 1, -1], [(0, 0), (1, 0), (2, -1), (3, 0)]),
       ([1, 0, -1], [(0, 0), (1, 0), (2, 0), (3, 0)]),
       ([1, 1, 0], [(0, 0), (1, 0), (2, 0), (3, 0)])]⟩
    (train_death_trajectory (1 / 2))
  exact ⟨h.1 (1 / 2) [] [0] [1] 1 7, h2.1, h2.2⟩

/-- Witness for C8 at radius 1 on a concrete status: key length 11, the
bottom-left window cell is dangerous (out of bounds), and the clamped
apple offsets are the last two entries. -/
theorem C8_encoder_characterization_witness :
    (ProximityPlayer.retrieve_proximity_map 1 statusA).length = 11 ∧
    (ProximityPlayer.retrieve_proximity_map 1 statusA)[0]? =
      some ProximityPlayer.MAP_DEATH ∧
    (ProximityPlayer.retrieve_proximity_map 1 statusA)[9]? = some 1 ∧
    (ProximityPlayer.retrieve_proximity_map 1 statusA)[10]? = some 0 := by
  have h := C8_encoder_characterization 1 statusA (by decide)
  exact ⟨h.1, h.2.1 0 0 (by norm_num) (by norm_num), h.2.2.1, h.2.2.2.1⟩
